import Mathlib

/-!
Verification of the curve-fitting and text-placement core of an SVG
path-text demo.  The embedding models the two core functions of
`src/src/App.tsx`:

* `coordsToSmoothPath` — Catmull-Rom-to-Bézier curve construction from a
  list of anchor points (lines 11–47 of the source);
* the character-placement computation of `TextPathDisplay`'s layout
  effect (lines 73–98), together with its helper `getPathPointAtLength`
  (lines 50–55), here called `placeCharacters`;
* the anchor-editing handlers `handleMouseMove` (move anchor) and
  `handleDeletePoint` (guarded deletion).

Coordinates are modelled as rationals.  The browser capabilities the code
calls — `path.getTotalLength()`, `path.getPointAtLength(L)` — are an
external black box per the design (the rendering collaborator supplies
arc-length realization), so they are modelled as an abstract
`RealizedCurve` structure.  Likewise `Math.atan2` and `Math.PI` are
opaque numeric primitives of the host and are passed in as an abstract
`MathPrims` record; all theorems about angles hold for every
interpretation of these primitives.
-/

/-- A 2D point with rational coordinates, modelling `{ x: number; y: number }`. -/
structure Point where
  x : ℚ
  y : ℚ
deriving DecidableEq, Repr

/-- Default point used to totalize list indexing (every access the source
performs is in bounds, so the default is never observed). -/
def pzero : Point := ⟨0, 0⟩

/-- One drawable SVG path command, the structural content of the path
string built by `coordsToSmoothPath`: `M x,y`, `L x,y`, or
`C cp1 cp2 p`. -/
inductive PathCmd where
  | moveTo (p : Point)
  | lineTo (p : Point)
  | cubicTo (cp1 cp2 p : Point)
deriving DecidableEq, Repr

/-- The Catmull-Rom segment command emitted by iteration `i` of the loop in
`coordsToSmoothPath` (source lines 23–44): flanking points `p0`/`p3` are the
real neighbours when they exist, otherwise the boundary reflections, and the
control points follow `CP1 = P1 + (P2 - P0)/6`, `CP2 = P2 - (P3 - P1)/6`. -/
def catmullSeg (coords : List Point) (i : ℕ) : PathCmd :=
  let p1 := coords.getD i pzero
  let p2 := coords.getD (i + 1) pzero
  let p0 := if i > 0 then coords.getD (i - 1) pzero else
    ⟨p1.x - (p2.x - p1.x), p1.y - (p2.y - p1.y)⟩
  let p3 := if i < coords.length - 2 then coords.getD (i + 2) pzero else
    ⟨p2.x + (p2.x - p1.x), p2.y + (p2.y - p1.y)⟩
  PathCmd.cubicTo
    ⟨p1.x + (p2.x - p0.x) / 6, p1.y + (p2.y - p0.y) / 6⟩
    ⟨p2.x - (p3.x - p1.x) / 6, p2.y - (p3.y - p1.y) / 6⟩
    p2

/-- Embedding of `coordsToSmoothPath` (source lines 11–47).  The source
returns an SVG path string; this returns the sequence of commands that
string serializes. -/
def coordsToSmoothPath (coords : List Point) : List PathCmd :=
  if coords.length = 0 then []
  else if coords.length = 1 then [PathCmd.moveTo (coords.getD 0 pzero)]
  else if coords.length = 2 then
    [PathCmd.moveTo (coords.getD 0 pzero), PathCmd.lineTo (coords.getD 1 pzero)]
  else
    PathCmd.moveTo (coords.getD 0 pzero) ::
      (List.range (coords.length - 1)).map (catmullSeg coords)

/-- The external capabilities of a realized (laid-out, measured) curve, as
provided by the rendering collaborator: `path.getTotalLength()` and
`path.getPointAtLength(L)`. -/
structure RealizedCurve where
  totalLength : ℚ
  pointAt : ℚ → Point

/-- Host math primitives `Math.atan2` and `Math.PI`, treated as opaque. -/
structure MathPrims where
  atan2 : ℚ → ℚ → ℚ
  pi : ℚ

/-- A character placement entry `{ x, y, angle }`. -/
structure PathPoint where
  x : ℚ
  y : ℚ
  angle : ℚ
deriving DecidableEq, Repr

/-- Embedding of `getPathPointAtLength` (source lines 50–55): sample the
point at arc length `length` and a second point at
`min (length + 1) totalLength`, and report the angle of the vector between
them in degrees via `atan2 Δy Δx * 180/π`. -/
def getPathPointAtLength (m : MathPrims) (c : RealizedCurve) (length : ℚ) : PathPoint :=
  let point := c.pointAt length
  let nextPoint := c.pointAt (min (length + 1) c.totalLength)
  let angle := m.atan2 (nextPoint.y - point.y) (nextPoint.x - point.x) * (180 / m.pi)
  ⟨point.x, point.y, angle⟩

/-- The slot width `charWidth = length / chars.length` (source line 83). -/
def charWidth (c : RealizedCurve) (n : ℕ) : ℚ := c.totalLength / n

/-- The sample arc length `charLength = (i + 0.5) * charWidth` of character
`i` (source line 85). -/
def charLength (c : RealizedCurve) (n : ℕ) (i : ℕ) : ℚ :=
  ((i : ℚ) + 1 / 2) * charWidth c n

/-- The body of one iteration of the placement loop (source lines 86–93):
sample position and tangent at the given arc length; keep the tangent
angle when `followPath` holds, otherwise force rotation 0. -/
def placeChar (m : MathPrims) (c : RealizedCurve) (followPath : Bool) (len : ℚ) : PathPoint :=
  let pathPoint := getPathPointAtLength m c len
  let rotation := if followPath then pathPoint.angle else 0
  ⟨pathPoint.x, pathPoint.y, rotation⟩

/-- Embedding of the character-placement computation in `TextPathDisplay`'s
layout effect (source lines 76–97): split the display text into characters;
when there is at least one character and the realized curve length is
positive, place character `i` at arc length `(i + 0.5) * charWidth`;
otherwise produce the empty placement list. -/
def placeCharacters (m : MathPrims) (c : RealizedCurve) (displayText : String)
    (followPath : Bool) : List PathPoint :=
  let chars := displayText.toList
  if chars.length > 0 ∧ c.totalLength > 0 then
    (List.range chars.length).map fun i =>
      placeChar m c followPath (charLength c chars.length i)
  else []

/-- Embedding of the `setCharCoords` update of `handleMouseMove` (source
lines 231–235): copy the anchor list and overwrite the entry at
`draggingIndex` with the new point.  The handler only fires while dragging
an existing anchor, so the index is an index of the list. -/
def handleMouseMove (prev : List Point) (draggingIndex : ℕ) (point : Point) : List Point :=
  prev.set draggingIndex point

/-- Embedding of `handleDeletePoint` (source lines 243–248): when more than
2 anchors remain, drop the entry whose position equals `index`; otherwise
leave the list unchanged. -/
def handleDeletePoint (charCoords : List Point) (index : ℕ) : List Point :=
  if charCoords.length > 2 then
    (charCoords.enum.filter (fun ip => ip.1 ≠ index)).map (fun ip => ip.2)
  else charCoords

/-- The endpoint a path command leaves the pen at. -/
def cmdEndpoint : PathCmd → Point
  | .moveTo p => p
  | .lineTo p => p
  | .cubicTo _ _ p => p

/-- Control point `CP1 = P1 + (P2 - P0)/6`, stated from the specification. -/
def specCtrl1 (p0 p1 p2 : Point) : Point :=
  ⟨p1.x + (p2.x - p0.x) / 6, p1.y + (p2.y - p0.y) / 6⟩

/-- Control point `CP2 = P2 - (P3 - P1)/6`, stated from the specification. -/
def specCtrl2 (p1 p2 p3 : Point) : Point :=
  ⟨p2.x - (p3.x - p1.x) / 6, p2.y - (p3.y - p1.y) / 6⟩

/-- The Bézier segment the specification prescribes for segment `i`: from
`P1 = anchors[i]` to `P2 = anchors[i+1]`, with `P0 = anchors[i-1]` (or the
reflection `P1 - (P2 - P1)` for the first segment) and `P3 = anchors[i+2]`
(or the reflection `P2 + (P2 - P1)` for the last segment). -/
def specSeg (coords : List Point) (i : ℕ) : PathCmd :=
  let p1 := coords.getD i pzero
  let p2 := coords.getD (i + 1) pzero
  let p0 := if i = 0 then ⟨p1.x - (p2.x - p1.x), p1.y - (p2.y - p1.y)⟩ else
    coords.getD (i - 1) pzero
  let p3 := if i = coords.length - 2 then ⟨p2.x + (p2.x - p1.x), p2.y + (p2.y - p1.y)⟩ else
    coords.getD (i + 2) pzero
  PathCmd.cubicTo (specCtrl1 p0 p1 p2) (specCtrl2 p1 p2 p3) p2

/-- C1: for every anchor sequence of length at least 3, the built path is a
move-to the first anchor followed by exactly `n - 1` cubic Bézier segments,
where segment `i` runs from `anchors[i]` to `anchors[i+1]` with control
points `CP1 = P1 + (P2 - P0)/6` and `CP2 = P2 - (P3 - P1)/6`, `P0` and `P3`
being the real neighbours or the boundary reflections `P1 - (P2 - P1)` and
`P2 + (P2 - P1)` for the first and last segments. -/
theorem coordsToSmoothPath_catmullRom (coords : List Point) (h : 3 ≤ coords.length) :
    coordsToSmoothPath coords =
      PathCmd.moveTo (coords.getD 0 pzero) ::
        (List.range (coords.length - 1)).map (specSeg coords) := by
  have h0 : ¬ coords.length = 0 := by omega
  have h1 : ¬ coords.length = 1 := by omega
  have h2 : ¬ coords.length = 2 := by omega
  rw [coordsToSmoothPath, if_neg h0, if_neg h1, if_neg h2]
  refine congrArg _ (List.map_congr_left fun i hi => ?_)
  rw [List.mem_range] at hi
  simp only [catmullSeg, specSeg, specCtrl1, specCtrl2]
  split_ifs <;> first | rfl | omega

/-- Witness for C1 at the concrete 3-anchor sequence
`[(0,0), (6,0), (6,6)]`. -/
theorem coordsToSmoothPath_catmullRom_witness :
    3 ≤ ([⟨0, 0⟩, ⟨6, 0⟩, ⟨6, 6⟩] : List Point).length ∧
      coordsToSmoothPath [⟨0, 0⟩, ⟨6, 0⟩, ⟨6, 6⟩] =
        [PathCmd.moveTo ⟨0, 0⟩,
         PathCmd.cubicTo ⟨2, 0⟩ ⟨5, -1⟩ ⟨6, 0⟩,
         PathCmd.cubicTo ⟨7, 1⟩ ⟨6, 4⟩ ⟨6, 6⟩] :=
  ⟨by decide,
    (coordsToSmoothPath_catmullRom [⟨0, 0⟩, ⟨6, 0⟩, ⟨6, 6⟩] (by decide)).trans
      (by with_unfolding_all decide)⟩

/-- C4: 0 anchors give an empty path, 1 anchor gives a single move-to that
anchor, and exactly 2 anchors give precisely the straight line segment
between the two points. -/
theorem coordsToSmoothPath_degenerate :
    coordsToSmoothPath [] = [] ∧
      (∀ p : Point, coordsToSmoothPath [p] = [PathCmd.moveTo p]) ∧
      (∀ p q : Point, coordsToSmoothPath [p, q] =
        [PathCmd.moveTo p, PathCmd.lineTo q]) :=
  ⟨rfl, fun _ => rfl, fun _ _ => rfl⟩

/-- Enumerating a list by positions recovers the list. -/
theorem map_getD_range (l : List Point) :
    (List.range l.length).map (fun i => l.getD i pzero) = l := by
  induction l with
  | nil => rfl
  | cons a t ih =>
    rw [List.length_cons, List.range_succ_eq_map, List.map_cons, List.map_map]
    exact congrArg (a :: ·) ih

/-- C5: for every nonempty anchor sequence, the built path starts with a
move-to the first anchor, and the segment endpoints of the path are exactly
the anchors in the given order (the curve passes through every anchor). -/
theorem curve_through_anchors (coords : List Point) (h : coords ≠ []) :
    (coordsToSmoothPath coords).map cmdEndpoint = coords ∧
      (coordsToSmoothPath coords).head? =
        some (PathCmd.moveTo (coords.getD 0 pzero)) := by
  match coords, h with
  | [p], _ => exact ⟨rfl, rfl⟩
  | [p, q], _ => exact ⟨rfl, rfl⟩
  | p :: q :: r :: t, _ =>
    have h0 : ¬ (p :: q :: r :: t).length = 0 := by simp
    have h1 : ¬ (p :: q :: r :: t).length = 1 := by simp
    have h2 : ¬ (p :: q :: r :: t).length = 2 := by simp
    rw [coordsToSmoothPath, if_neg h0, if_neg h1, if_neg h2]
    refine ⟨?_, rfl⟩
    rw [List.map_cons, List.map_map]
    exact congrArg (p :: ·) (map_getD_range (q :: r :: t))

/-- Witness for C5 at the 4-anchor sample sequence of the application. -/
theorem curve_through_anchors_witness :
    ([⟨100, 400⟩, ⟨300, 300⟩, ⟨500, 270⟩, ⟨700, 300⟩] : List Point) ≠ [] ∧
      ((coordsToSmoothPath [⟨100, 400⟩, ⟨300, 300⟩, ⟨500, 270⟩, ⟨700, 300⟩]).map cmdEndpoint =
          [⟨100, 400⟩, ⟨300, 300⟩, ⟨500, 270⟩, ⟨700, 300⟩] ∧
        (coordsToSmoothPath [⟨100, 400⟩, ⟨300, 300⟩, ⟨500, 270⟩, ⟨700, 300⟩]).head? =
          some (PathCmd.moveTo
            (([⟨100, 400⟩, ⟨300, 300⟩, ⟨500, 270⟩, ⟨700, 300⟩] : List Point).getD 0 pzero))) :=
  ⟨by decide, curve_through_anchors _ (by decide)⟩

/-- Concrete math primitives used by witnesses. -/
def mprimsW : MathPrims := ⟨fun y x => x + 2 * y, 3⟩

/-- Concrete realized curve of total length 10 used by witnesses. -/
def curveW : RealizedCurve := ⟨10, fun len => ⟨len, 2 * len⟩⟩

/-- Concrete degenerate realized curve of total length 0. -/
def zeroCurve : RealizedCurve := ⟨0, fun _ => pzero⟩

/-- C2: for a realized curve of positive total length and a character index
`i` of the display text, entry `i` of the placement is the character placed
at arc length `charLength`, which equals `(i + 0.5) * (T / n)`; consecutive
sample lengths strictly increase and every sample length lies in `[0, T)`. -/
theorem placement_sample_lengths (m : MathPrims) (c : RealizedCurve) (displayText : String)
    (followPath : Bool) (i : ℕ) (hT : 0 < c.totalLength)
    (hi : i < displayText.toList.length) :
    (placeCharacters m c displayText followPath)[i]? =
        some (placeChar m c followPath (charLength c displayText.toList.length i)) ∧
      charLength c displayText.toList.length i =
        ((i : ℚ) + 1 / 2) * (c.totalLength / (displayText.toList.length : ℚ)) ∧
      (i + 1 < displayText.toList.length →
        charLength c displayText.toList.length i <
          charLength c displayText.toList.length (i + 1)) ∧
      0 ≤ charLength c displayText.toList.length i ∧
      charLength c displayText.toList.length i < c.totalLength := by
  have hn : 0 < displayText.toList.length := by omega
  have hnq : (0 : ℚ) < (displayText.toList.length : ℚ) := by exact_mod_cast hn
  have hw : 0 < charWidth c displayText.toList.length := div_pos hT hnq
  refine ⟨?_, rfl, ?_, ?_, ?_⟩
  · simp only [placeCharacters]
    rw [if_pos ⟨hn, hT⟩, List.getElem?_map, List.getElem?_range hi, Option.map_some']
  · intro _
    refine mul_lt_mul_of_pos_right ?_ hw
    push_cast
    linarith
  · exact mul_nonneg (by positivity) (le_of_lt hw)
  · have hlt : (i : ℚ) + 1 / 2 < (displayText.toList.length : ℚ) := by
      have : (i : ℚ) + 1 ≤ (displayText.toList.length : ℚ) := by exact_mod_cast hi
      linarith
    have hne : (displayText.toList.length : ℚ) ≠ 0 := ne_of_gt hnq
    calc charLength c displayText.toList.length i
        < (displayText.toList.length : ℚ) * charWidth c displayText.toList.length :=
          mul_lt_mul_of_pos_right hlt hw
      _ = c.totalLength := by
          rw [charWidth, mul_comm, div_mul_cancel₀ _ hne]

/-- Witness for C2 at the two-character text "ab" on a curve of length 10,
character index 0. -/
theorem placement_sample_lengths_witness :
    0 < curveW.totalLength ∧ 0 < "ab".toList.length ∧
      ((placeCharacters mprimsW curveW "ab" true)[0]? =
          some (placeChar mprimsW curveW true (charLength curveW "ab".toList.length 0)) ∧
        charLength curveW "ab".toList.length 0 =
          (((0 : ℕ) : ℚ) + 1 / 2) * (curveW.totalLength / ("ab".toList.length : ℚ)) ∧
        (0 + 1 < "ab".toList.length →
          charLength curveW "ab".toList.length 0 <
            charLength curveW "ab".toList.length (0 + 1)) ∧
        0 ≤ charLength curveW "ab".toList.length 0 ∧
        charLength curveW "ab".toList.length 0 < curveW.totalLength) :=
  ⟨by with_unfolding_all decide, by decide,
    placement_sample_lengths mprimsW curveW "ab" true 0
      (by with_unfolding_all decide) (by decide)⟩

/-- C3 counterexample: on the degenerate curve of total length 0 with the
one-character text "a", the placement is empty, so its length differs from
the number of characters of the display string. -/
theorem placement_length_counterexample :
    (placeCharacters mprimsW zeroCurve "a" true).length ≠ "a".toList.length := by
  with_unfolding_all decide

/-- C3 amended: whenever the realized curve's total length is positive, the
placement has exactly one entry per character of the display string. -/
theorem placement_length_of_pos (m : MathPrims) (c : RealizedCurve) (displayText : String)
    (followPath : Bool) (hT : 0 < c.totalLength) :
    (placeCharacters m c displayText followPath).length = displayText.toList.length := by
  simp only [placeCharacters]
  by_cases hn : displayText.toList.length > 0
  · rw [if_pos ⟨hn, hT⟩, List.length_map, List.length_range]
  · rw [if_neg (fun hc => hn hc.1), List.length_nil]
    omega

/-- Witness for the amended C3 at text "ab" on a curve of length 10. -/
theorem placement_length_of_pos_witness :
    0 < curveW.totalLength ∧
      (placeCharacters mprimsW curveW "ab" true).length = "ab".toList.length :=
  ⟨by with_unfolding_all decide,
    placement_length_of_pos mprimsW curveW "ab" true (by with_unfolding_all decide)⟩

/-- C6: the angle reported at arc length `L` is the degree angle
`atan2 Δy Δx * 180/π` of the vector from the curve point at `L` to the
curve point at `min (L + 1) totalLength` (finite-difference tangent with
fixed ε = 1). -/
theorem angle_finite_difference (m : MathPrims) (c : RealizedCurve) (L : ℚ) :
    (getPathPointAtLength m c L).angle =
      m.atan2 ((c.pointAt (min (L + 1) c.totalLength)).y - (c.pointAt L).y)
          ((c.pointAt (min (L + 1) c.totalLength)).x - (c.pointAt L).x) *
        (180 / m.pi) := rfl

/-- C7: with `followPath = false` every placement angle is 0, and the
`(x, y)` positions coincide entry-by-entry with the `followPath = true`
placement of the same curve and text. -/
theorem followPath_false_flat_angles (m : MathPrims) (c : RealizedCurve)
    (displayText : String) :
    (placeCharacters m c displayText false).map (fun p => p.angle) =
        List.replicate (placeCharacters m c displayText false).length 0 ∧
      (placeCharacters m c displayText false).map (fun p => (p.x, p.y)) =
        (placeCharacters m c displayText true).map (fun p => (p.x, p.y)) := by
  simp only [placeCharacters]
  by_cases hc : displayText.toList.length > 0 ∧ c.totalLength > 0
  · rw [if_pos hc, if_pos hc]
    constructor
    · rw [List.map_map, List.length_map, List.length_range]
      have he : ((fun p => p.angle) ∘ fun i =>
          placeChar m c false (charLength c displayText.toList.length i)) =
          fun _ => (0 : ℚ) := rfl
      rw [he, List.map_const', List.length_range]
    · rw [List.map_map, List.map_map]
      rfl
  · rw [if_neg hc, if_neg hc]
    exact ⟨rfl, rfl⟩

/-- C8: the placement is empty whenever the display string has no
characters or the realized curve has total length 0. -/
theorem placement_degenerate_empty (m : MathPrims) (c : RealizedCurve)
    (displayText : String) (followPath : Bool)
    (h : displayText.toList = [] ∨ c.totalLength = 0) :
    placeCharacters m c displayText followPath = [] := by
  simp only [placeCharacters]
  rcases h with h | h
  · rw [if_neg]
    intro hc
    rw [h] at hc
    exact absurd hc.1 (by simp)
  · rw [if_neg]
    intro hc
    rw [h] at hc
    exact absurd hc.2 (lt_irrefl 0)

/-- Witness for C8 on the degenerate curve of total length 0 with text "a". -/
theorem placement_degenerate_empty_witness :
    ("a".toList = [] ∨ zeroCurve.totalLength = 0) ∧
      placeCharacters mprimsW zeroCurve "a" true = [] :=
  ⟨Or.inr rfl, placement_degenerate_empty mprimsW zeroCurve "a" true (Or.inr rfl)⟩

/-- C9: a delete request that would leave fewer than 2 anchors is a silent
no-op: the anchor sequence is returned unchanged. -/
theorem deletePoint_guard (charCoords : List Point) (index : ℕ)
    (h : charCoords.length - 1 < 2) :
    handleDeletePoint charCoords index = charCoords := by
  rw [handleDeletePoint, if_neg (by omega)]

/-- Witness for C9: deleting from a 2-anchor sequence is a no-op, keeping
the anchor count at 2. -/
theorem deletePoint_guard_witness :
    ([⟨0, 0⟩, ⟨1, 2⟩] : List Point).length - 1 < 2 ∧
      handleDeletePoint [⟨0, 0⟩, ⟨1, 2⟩] 0 = [⟨0, 0⟩, ⟨1, 2⟩] ∧
      (handleDeletePoint [⟨0, 0⟩, ⟨1, 2⟩] 0).length = 2 :=
  ⟨by decide, deletePoint_guard [⟨0, 0⟩, ⟨1, 2⟩] 0 (by decide),
    (congrArg List.length (deletePoint_guard [⟨0, 0⟩, ⟨1, 2⟩] 0 (by decide))).trans rfl⟩

/-- C10: moving the anchor at an in-bounds index yields a sequence of the
same length whose entry at that index is the new point and whose every
other entry is unchanged. -/
theorem moveAnchor_frame (prev : List Point) (i : ℕ) (p : Point)
    (h : i < prev.length) :
    (handleMouseMove prev i p).length = prev.length ∧
      (handleMouseMove prev i p).getD i pzero = p ∧
      ∀ j, j ≠ i → (handleMouseMove prev i p).getD j pzero = prev.getD j pzero := by
  refine ⟨List.length_set prev i p, ?_, ?_⟩
  · rw [handleMouseMove, List.getD_eq_getElem?_getD, List.getElem?_set_eq_of_lt p h]
    rfl
  · intro j hj
    rw [handleMouseMove, List.getD_eq_getElem?_getD,
      List.getElem?_set_ne (fun he => hj he.symm), ← List.getD_eq_getElem?_getD]

/-- Witness for C10: moving anchor 1 of a 2-anchor sequence to (5, 7). -/
theorem moveAnchor_frame_witness :
    1 < ([⟨0, 0⟩, ⟨1, 2⟩] : List Point).length ∧
      ((handleMouseMove [⟨0, 0⟩, ⟨1, 2⟩] 1 ⟨5, 7⟩).length =
          ([⟨0, 0⟩, ⟨1, 2⟩] : List Point).length ∧
        (handleMouseMove [⟨0, 0⟩, ⟨1, 2⟩] 1 ⟨5, 7⟩).getD 1 pzero = ⟨5, 7⟩ ∧
        ∀ j, j ≠ 1 → (handleMouseMove [⟨0, 0⟩, ⟨1, 2⟩] 1 ⟨5, 7⟩).getD j pzero =
          ([⟨0, 0⟩, ⟨1, 2⟩] : List Point).getD j pzero) :=
  ⟨by decide, moveAnchor_frame [⟨0, 0⟩, ⟨1, 2⟩] 1 ⟨5, 7⟩ (by decide)⟩
